import Mathlib

/-!
# Verification of the hit-table aggregation subsystem (`lib/Hit_tables.py`)

This file embeds the `Hit_tables` class of `lib/Hit_tables.py` together with the
`Hit` value type it manipulates, and proves the specified properties of
`add_table`, `write_hit_sequences` and `compile_tables`.

Python dictionaries are insertion-ordered, so `dict` is embedded as an
association list in which assignment to an existing key updates the entry in
place and assignment to a fresh key appends at the end.  File output is
embedded as a map from path to file content, with `open(path, 'w')` replacing
the content wholesale.  Warnings printed to `stderr` are collected in a list.
-/

namespace Labas

/-- Modelled from the spec: one raw tabular search-result row (BLAST outfmt 6
style), as consumed by the `Hit` constructor of `lib/Hit.py`, which is absent
from `src/`.  A row carries the query identifier (`qseqid`), the subject
identifier (`sseqid`), the fixed alignment-metric fields (kept abstract as a list
of strings), and the matched subsequence. -/
structure Row where
  qseqid : String
  sseqid : String
  attrs : List String
  sseq : String
deriving DecidableEq, Repr

/-- Modelled from the spec: `HIT_ATTRS` of `lib/Hit.py` (absent from `src/`),
the names of the attribute columns appended to the compiled-table header:
percent identity, alignment length, mismatches, gaps, query/subject start-end
coordinates, e-value, bit score, matched subsequence. -/
def HIT_ATTRS : List String :=
  ["pident", "length", "mismatch", "gapopen", "qstart", "qend",
   "sstart", "send", "evalue", "bitscore", "sseq"]

/-- Modelled from the spec: class `Hit` of `lib/Hit.py` (absent from `src/`).
One matched alignment row augmented with a derived identifier.  The identifier
attribute is named `hit` (it is read as `h.hit` by `Hit_tables`), and
`attr_values` is the ordered list of column values following `sample` and
`hit` in a compiled row, i.e. `qseqid`, `sseqid` and the attribute fields. -/
structure Hit where
  sample : String
  query : String
  hit : String
  attr_values : List String
  sseq : String
deriving DecidableEq, Repr

/-- Modelled from the spec: the `Hit` constructor with
`append_sample_name = True`: parse the row and derive the initial id
`hitId = query + "@" + sample`. -/
def Hit.ofRow (sample : String) (r : Row) : Hit :=
  { sample := sample
    query := r.qseqid
    hit := r.qseqid ++ "@" ++ sample
    attr_values := [r.qseqid, r.sseqid] ++ r.attrs
    sseq := r.sseq }

/-- Modelled from the spec: `Hit.set_hitid(new_id)` overwrites the id. -/
def Hit.set_hitid (h : Hit) (newId : String) : Hit :=
  { h with hit := newId }

/-- Modelled from the spec: `Hit.write_seq(sink)` emits one FASTA record whose
header is the hit's id and whose body is the matched subsequence. -/
def Hit.write_seq (h : Hit) : String :=
  ">" ++ h.hit ++ "\n" ++ h.sseq ++ "\n"

/-- Lookup in an insertion-ordered association list (Python `d[k]` /
`k in d.keys()`). -/
def alLookup {α : Type} : List (String × α) → String → Option α
  | [], _ => none
  | (k', v) :: rest, k => if k' = k then some v else alLookup rest k

/-- Assignment `d[k] = v` on an insertion-ordered association list: update in
place when the key exists, append at the end otherwise. -/
def alUpdate {α : Type} : List (String × α) → String → α → List (String × α)
  | [], k, v => [(k, v)]
  | (k', v') :: rest, k, v =>
      if k' = k then (k', v) :: rest else (k', v') :: alUpdate rest k v

/-- A per-sample hit table: the insertion-ordered mapping
query → list of `Hit`, as stored in `self.__hit_tables[sample]`. -/
abbrev HitTable := List (String × List Hit)

/-- The state of the loop body of `add_table`: the temporary hit table `ht`
and the counter dictionary `hits_num`.  The two Python dictionaries always
hold exactly the same keys and are always read and written together, so they
are embedded as one association list of pairs. -/
abbrev AddAcc := List (String × (List Hit × Nat))

/-- One iteration of the `for line in hit_table` loop of
`Hit_tables.add_table` (lines 35-50 of `lib/Hit_tables.py`):
construct the `Hit`; if its query is already a key, relabel the stored first
hit with suffix `":1"` when the counter is 1 (`ht[q] = [h_prev]`), then give
the current hit the suffix `":" + str(n+1)` and append it; otherwise create a
fresh singleton entry with counter 1. -/
def add_table_step (sample : String) (acc : AddAcc) (line : Row) : AddAcc :=
  let h := Hit.ofRow sample line
  let q := h.query
  match alLookup acc q with
  | some (l, n) =>
      let l1 :=
        if n = 1 then
          match l with
          | h_prev :: _ => [h_prev.set_hitid (h_prev.hit ++ ":" ++ "1")]
          | [] => []  -- unreachable: when the counter is 1 the stored list is a singleton (CPython would raise IndexError on ht[q][0])
        else l
      let n' := n + 1
      let h' := h.set_hitid (h.hit ++ ":" ++ Nat.repr n')
      alUpdate acc q (l1 ++ [h'], n')
  | none => alUpdate acc q ([h], 1)

/-- The table built by `add_table` for one sample from a present (non-`None`)
list of rows: run the loop from an empty dictionary, then keep the hit lists
(the counter dictionary `hits_num` is local to `add_table`). -/
def build_table (sample : String) (rows : List Row) : HitTable :=
  (rows.foldl (add_table_step sample) []).map (fun e => (e.1, e.2.1))

/-- The store `self.__hit_tables`: the insertion-ordered mapping
sample → hit table or `None` (absence marker). -/
abbrev Store := List (String × Option HitTable)

/-- Method `Hit_tables.add_table(sample, hit_table)`: store the built table, or the
absence marker `None` when the raw output is empty, under the sample's name. -/
def add_table (store : Store) (sample : String) (hit_table : Option (List Row)) : Store :=
  match hit_table with
  | some rows => alUpdate store sample (some (build_table sample rows))
  | none => alUpdate store sample none

/-- Property `Hit_tables.table_num`: the number of stored hit tables. -/
def table_num (store : Store) : Nat := store.length

/-- Property `Hit_tables.sample_names`: the stored sample names, in insertion order. -/
def sample_names (store : Store) : List String := store.map Prod.fst

/-- The file system: a mapping from path to file content.  `open(p, 'w')`
followed by writes replaces the content at `p` wholesale. -/
abbrev Fs := List (String × String)

/-- The content written to `<query>.fna` by `Hit_tables.write_hit_sequences`:
for each sample in order, if its table is present and contains the query,
the concatenation of the FASTA records of the hits under that query. -/
def write_content (store : Store) (query : String) : String :=
  store.foldr (fun e rest =>
    (match e.2 with
     | some t =>
         match alLookup t query with
         | some hits => String.join (hits.map Hit.write_seq)
         | none => ""
     | none => "") ++ rest) ""

/-- The warnings printed to `stderr` by `Hit_tables.write_hit_sequences`: one
per sample whose present table lacks the query, and one per absent table. -/
def write_warnings (store : Store) (query : String) : List String :=
  store.foldr (fun e rest =>
    (match e.2 with
     | some t =>
         match alLookup t query with
         | some _ => []
         | none => ["Warning (write_hit_sequences): query sequence " ++ query ++
                    " was not found in sample " ++ e.1 ++ "."]
     | none => ["Warning (write_hit_sequences): no query sequence was found in sample " ++
                e.1 ++ "."]) ++ rest) []

/-- Method `Hit_tables.write_hit_sequences(query, outdir)`: overwrite
`outdir/<query>.fna` (the name is `'.'.join([query, 'fna'])`) with the FASTA
records of the query's hits across all samples, returning the new file system
and the warnings printed to `stderr`. -/
def write_hit_sequences (store : Store) (query outdir : String) (fs : Fs) :
    Fs × List String :=
  (alUpdate fs (outdir ++ "/" ++ (query ++ "." ++ "fna")) (write_content store query),
   write_warnings store query)

/-- The header line of `compiled_hits.tsv`:
`'\t'.join(['sample', 'hit', 'qseqid', 'sseqid'] + HIT_ATTRS)`. -/
def compile_header : String :=
  String.intercalate "\t" (["sample", "hit", "qseqid", "sseqid"] ++ HIT_ATTRS)

/-- One data row of `compiled_hits.tsv`:
`'\t'.join([s, h.hit] + h.attr_values)`. -/
def compile_row (s : String) (h : Hit) : String :=
  String.intercalate "\t" ([s, h.hit] ++ h.attr_values)

/-- The data rows of `compiled_hits.tsv`: for each sample in order with a
present table, one row per hit, in table order then hit-list order. -/
def compile_data_rows (store : Store) : List String :=
  store.foldr (fun e rest =>
    (match e.2 with
     | some t => t.foldr (fun p r2 => p.2.map (compile_row e.1) ++ r2) []
     | none => []) ++ rest) []

/-- All lines printed to `compiled_hits.tsv`: the header, then the data rows. -/
def compile_lines (store : Store) : List String :=
  compile_header :: compile_data_rows store

/-- The full content of `compiled_hits.tsv` (each `print` appends a newline). -/
def compile_content (store : Store) : String :=
  String.join ((compile_lines store).map (fun l => l ++ "\n"))

/-- The warnings printed to `stderr` by `Hit_tables.compile_tables`: one per
sample with an absent table. -/
def compile_warnings (store : Store) : List String :=
  store.foldr (fun e rest =>
    (match e.2 with
     | some _ => []
     | none => ["Warning (compile_tables): no query sequence was found in sample " ++
                e.1 ++ "."]) ++ rest) []

/-- Method `Hit_tables.compile_tables(outdir)`: overwrite
`outdir/compiled_hits.tsv` with the header line and one row per stored hit,
returning the new file system and the warnings printed to `stderr`. -/
def compile_tables (store : Store) (outdir : String) (fs : Fs) :
    Fs × List String :=
  (alUpdate fs (outdir ++ "/" ++ "compiled_hits.tsv") (compile_content store),
   compile_warnings store)

/-- The full state touched by a `Hit_tables` object's methods: the store
(`self.__hit_tables`), the file system, and the `stderr` stream. -/
structure PState where
  store : Store
  fs : Fs
  stderr : List String
deriving DecidableEq, Repr

/-- Method `write_hit_sequences` acting on the full state. -/
def write_hit_sequences_m (st : PState) (query outdir : String) : PState :=
  let out := write_hit_sequences st.store query outdir st.fs
  { st with fs := out.1, stderr := st.stderr ++ out.2 }

/-- Method `compile_tables` acting on the full state. -/
def compile_tables_m (st : PState) (outdir : String) : PState :=
  let out := compile_tables st.store outdir st.fs
  { st with fs := out.1, stderr := st.stderr ++ out.2 }

/-- Method `add_table` acting on the full state. -/
def add_table_m (st : PState) (sample : String) (hit_table : Option (List Row)) : PState :=
  { st with store := add_table st.store sample hit_table }

/-! ## Canonical description of the built table -/

/-- The hit built from row `r` whose id received the suffix `":" ++ k` at
creation or by the single retroactive relabelling. -/
def suffixedHit (sample : String) (r : Row) (k : Nat) : Hit :=
  (Hit.ofRow sample r).set_hitid ((Hit.ofRow sample r).hit ++ ":" ++ Nat.repr k)

/-- The hits of one query suffixed `:k`, `:k+1`, ... in list order. -/
def suffixHits (sample : String) (k : Nat) : List Row → List Hit
  | [] => []
  | r :: rest => suffixedHit sample r k :: suffixHits sample (k + 1) rest

/-- The final hit list stored for one query, given the rows of that query in
observation order: a lone hit keeps the unsuffixed id, two or more hits are
suffixed `:1 .. :N`. -/
def canonHits (sample : String) (qrows : List Row) : List Hit :=
  if qrows.length ≤ 1 then qrows.map (Hit.ofRow sample)
  else suffixHits sample 1 qrows

/-- The final accumulator entry stored for one query: the hit list together
with the counter, which equals the number of rows of that query. -/
def canonEntry (sample : String) (qrows : List Row) : List Hit × Nat :=
  (canonHits sample qrows, qrows.length)

/-- The distinct elements of a list, keeping first occurrences in order: the
key order of a Python dictionary filled by the `add_table` loop. -/
def firstOccurrences (l : List String) : List String :=
  l.foldl (fun acc q => if q ∈ acc then acc else acc ++ [q]) []

/-- The shape of every hit id within a sample: `query@sample` for a lone hit,
`query@sample:n` for the n-th of several hits. -/
def idOf (sample : String) : String × Option Nat → String
  | (q, none) => q ++ "@" ++ sample
  | (q, some k) => q ++ "@" ++ sample ++ ":" ++ Nat.repr k

/-- All hit ids stored in one sample's table, in table order. -/
def table_ids (t : HitTable) : List String :=
  (t.map (fun e => e.2.map Hit.hit)).flatten

/-- The occurrence indices attached to the ids of one query's hits: no suffix
for at most one hit, suffixes `1 .. n` otherwise. -/
def optIndices (n : Nat) : List (Option Nat) :=
  if n ≤ 1 then List.replicate n none else (List.range' 1 n).map some

/-- The total number of hits over all present tables of the store. -/
def store_hit_count (store : Store) : Nat :=
  (store.map (fun e =>
    match e.2 with
    | some t => (t.map (fun p => p.2.length)).sum
    | none => 0)).sum

/-! ## Decimal representation: `Nat.repr` is injective and uses no `'@'` -/

lemma toDigitsCore_eq_digits (f : Nat) : ∀ (n : Nat) (acc : List Char), 0 < n → n < f →
    Nat.toDigitsCore 10 f n acc = ((Nat.digits 10 n).map Nat.digitChar).reverse ++ acc := by
  induction f with
  | zero => intro n acc _ h; omega
  | succ f ih =>
    intro n acc hn hf
    rw [Nat.digits_def' (by norm_num : 1 < 10) hn]
    by_cases h10 : n / 10 = 0
    · simp [Nat.toDigitsCore, h10]
    · have hlt : n / 10 < f := by
        have := Nat.div_lt_self hn (by norm_num : 1 < 10)
        omega
      simp only [Nat.toDigitsCore, h10, if_false]
      rw [ih (n / 10) (Nat.digitChar (n % 10) :: acc) (Nat.pos_of_ne_zero h10) hlt]
      rw [Nat.digits_def' (by norm_num : 1 < 10) (Nat.pos_of_ne_zero h10)]
      simp [List.append_assoc]

lemma repr_data (n : Nat) :
    (Nat.repr n).data = if n = 0 then ['0']
      else ((Nat.digits 10 n).map Nat.digitChar).reverse := by
  by_cases hn : n = 0
  · subst hn; rfl
  · simp only [hn, if_false]
    show (Nat.toDigits 10 n).asString.data = _
    rw [Nat.toDigits, toDigitsCore_eq_digits (n + 1) n [] (Nat.pos_of_ne_zero hn) (by omega)]
    simp [List.asString]

lemma digitChar_inj_lt10 {d1 d2 : Nat} (h1 : d1 < 10) (h2 : d2 < 10)
    (h : Nat.digitChar d1 = Nat.digitChar d2) : d1 = d2 := by
  interval_cases d1 <;> interval_cases d2 <;> revert h <;> decide

lemma digitChar_ne_at {d : Nat} (h : d < 10) : Nat.digitChar d ≠ '@' := by
  interval_cases d <;> decide

lemma map_digitChar_inj : ∀ {L1 L2 : List Nat}, (∀ x ∈ L1, x < 10) → (∀ x ∈ L2, x < 10) →
    L1.map Nat.digitChar = L2.map Nat.digitChar → L1 = L2 := by
  intro L1
  induction L1 with
  | nil => intro L2 _ _ h; cases L2 with
    | nil => rfl
    | cons b t => simp at h
  | cons a t1 ih =>
    intro L2 hb1 hb2 h
    cases L2 with
    | nil => simp at h
    | cons b t2 =>
      simp only [List.map_cons, List.cons.injEq] at h
      have ha : a = b := digitChar_inj_lt10 (hb1 a (by simp)) (hb2 b (by simp)) h.1
      have ht : t1 = t2 := ih (fun x hx => hb1 x (by simp [hx]))
        (fun x hx => hb2 x (by simp [hx])) h.2
      rw [ha, ht]

lemma nat_repr_injective {n m : Nat} (h : Nat.repr n = Nat.repr m) : n = m := by
  have hd : (Nat.repr n).data = (Nat.repr m).data := by rw [h]
  rw [repr_data, repr_data] at hd
  have key : ∀ k : Nat, k ≠ 0 → (Nat.digits 10 k).map Nat.digitChar ≠ ['0'] := by
    intro k hk hmap
    cases hL : Nat.digits 10 k with
    | nil => rw [hL] at hmap; simp at hmap
    | cons d t =>
      rw [hL] at hmap
      simp only [List.map_cons, List.cons.injEq, List.map_eq_nil_iff] at hmap
      have hd10 : d < 10 := Nat.digits_lt_base (by norm_num) (by rw [hL]; simp)
      have hd0 : d = 0 := digitChar_inj_lt10 hd10 (by norm_num)
        (by rw [hmap.1]; rfl)
      have : Nat.ofDigits 10 (Nat.digits 10 k) = k := Nat.ofDigits_digits 10 k
      rw [hL, hmap.2, hd0] at this
      simp [Nat.ofDigits] at this
      exact hk this.symm
  by_cases hn : n = 0 <;> by_cases hm : m = 0
  · rw [hn, hm]
  · rw [if_pos hn, if_neg hm] at hd
    exact absurd (List.reverse_inj.mp (by simpa using hd.symm)) (key m hm)
  · rw [if_neg hn, if_pos hm] at hd
    exact absurd (List.reverse_inj.mp (by simpa using hd)) (key n hn)
  · rw [if_neg hn, if_neg hm] at hd
    have hmap := List.reverse_inj.mp hd
    have hdig : Nat.digits 10 n = Nat.digits 10 m :=
      map_digitChar_inj (fun x hx => Nat.digits_lt_base (by norm_num) hx)
        (fun x hx => Nat.digits_lt_base (by norm_num) hx) hmap
    exact Nat.digits.injective 10 hdig

lemma repr_chars_ne_at (k : Nat) : ∀ c ∈ (Nat.repr k).data, c ≠ '@' := by
  intro c hc
  rw [repr_data] at hc
  by_cases hk : k = 0
  · rw [if_pos hk] at hc
    simp at hc
    rw [hc]; decide
  · rw [if_neg hk] at hc
    rw [List.mem_reverse, List.mem_map] at hc
    obtain ⟨d, hd, rfl⟩ := hc
    exact digitChar_ne_at (Nat.digits_lt_base (by norm_num) hd)

/-! ## The separator `'@'` makes hit ids unambiguous -/

lemma takeWhile_append_of_all {α : Type} (p : α → Bool) :
    ∀ (A B : List α), (∀ a ∈ A, p a = true) →
      List.takeWhile p (A ++ B) = A ++ List.takeWhile p B := by
  intro A
  induction A with
  | nil => intro B _; simp
  | cons a A ih =>
    intro B h
    simp only [List.cons_append, List.takeWhile_cons, h a (by simp), if_true]
    rw [ih B (fun x hx => h x (by simp [hx]))]

lemma takeWhile_stops {α : Type} (p : α → Bool) (c : α) (hc : p c = false) :
    ∀ (A B B' : List α),
      List.takeWhile p (A ++ c :: B) = List.takeWhile p (A ++ c :: B') := by
  intro A
  induction A with
  | nil => intro B B'; simp [List.takeWhile_cons, hc]
  | cons a A ih =>
    intro B B'
    simp only [List.cons_append, List.takeWhile_cons]
    by_cases hp : p a = true
    · rw [if_pos hp, if_pos hp, ih B B']
    · simp at hp
      rw [if_neg (by simp [hp]), if_neg (by simp [hp])]

lemma sep_inj {q1 q2 s r1 r2 : List Char}
    (h1 : ∀ c ∈ r1, c ≠ '@') (h2 : ∀ c ∈ r2, c ≠ '@')
    (he : q1 ++ '@' :: (s ++ r1) = q2 ++ '@' :: (s ++ r2)) :
    q1 = q2 ∧ r1 = r2 := by
  have hrev : r1.reverse ++ (s.reverse ++ '@' :: q1.reverse) =
      r2.reverse ++ (s.reverse ++ '@' :: q2.reverse) := by
    have := congrArg List.reverse he
    simpa [List.reverse_append] using this
  set p : Char → Bool := fun c => c != '@' with hp
  have hpat : p '@' = false := by simp [hp]
  have hall1 : ∀ a ∈ r1.reverse, p a = true := by
    intro a ha; simp [hp]; exact h1 a (List.mem_reverse.mp ha)
  have hall2 : ∀ a ∈ r2.reverse, p a = true := by
    intro a ha; simp [hp]; exact h2 a (List.mem_reverse.mp ha)
  have htw := congrArg (List.takeWhile p) hrev
  rw [takeWhile_append_of_all p r1.reverse _ hall1,
      takeWhile_append_of_all p r2.reverse _ hall2,
      takeWhile_stops p '@' hpat s.reverse q1.reverse [],
      takeWhile_stops p '@' hpat s.reverse q2.reverse []] at htw
  have hr : r1 = r2 := by
    have := (List.append_inj' htw rfl).1
    exact List.reverse_inj.mp this
  subst hr
  refine ⟨?_, rfl⟩
  exact (List.append_inj' he rfl).1

/-- For a fixed sample, the id-forming function is injective: ids of different
(query, occurrence) pairs differ, whatever characters the query and sample
names contain. -/
lemma idOf_injective (sample : String) : Function.Injective (idOf sample) := by
  rintro ⟨q1, o1⟩ ⟨q2, o2⟩ h
  have hdata : ∀ (q : String) (o : Option Nat), (idOf sample (q, o)).data =
      q.data ++ '@' :: (sample.data ++ (match o with
        | none => []
        | some k => ':' :: (Nat.repr k).data)) := by
    intro q o
    cases o with
    | none => simp [idOf, String.data_append]
    | some k => simp [idOf, String.data_append]
  have h' := congrArg String.data h
  rw [hdata, hdata] at h'
  have hne : ∀ o : Option Nat, ∀ c ∈ (match o with
      | none => ([] : List Char)
      | some k => ':' :: (Nat.repr k).data), c ≠ '@' := by
    intro o c hc
    cases o with
    | none => simp at hc
    | some k =>
      simp at hc
      rcases hc with hc | hc
      · rw [hc]; decide
      · exact repr_chars_ne_at k c hc
  obtain ⟨hq, ho⟩ := sep_inj (hne o1) (hne o2) h'
  have hqq : q1 = q2 := String.ext hq
  cases o1 with
  | none =>
    cases o2 with
    | none => rw [hqq]
    | some k2 => simp at ho
  | some k1 =>
    cases o2 with
    | none => simp at ho
    | some k2 =>
      simp only [List.cons.injEq] at ho
      have : Nat.repr k1 = Nat.repr k2 := String.ext ho.2
      rw [hqq, nat_repr_injective this]

/-! ## Association-list and first-occurrence lemmas -/

lemma alLookup_map_of_mem {α : Type} (g : String → α) :
    ∀ (F : List String) (q : String), q ∈ F →
      alLookup (F.map (fun x => (x, g x))) q = some (g q) := by
  intro F
  induction F with
  | nil => intro q hq; simp at hq
  | cons a F ih =>
    intro q hq
    simp only [List.map_cons, alLookup]
    by_cases ha : a = q
    · rw [if_pos ha, ha]
    · rw [if_neg ha]
      exact ih q (by rcases List.mem_cons.mp hq with h | h; exact absurd h.symm ha; exact h)

lemma alLookup_map_of_not_mem {α : Type} (g : String → α) :
    ∀ (F : List String) (q : String), q ∉ F →
      alLookup (F.map (fun x => (x, g x))) q = none := by
  intro F
  induction F with
  | nil => intro q _; rfl
  | cons a F ih =>
    intro q hq
    simp only [List.map_cons, alLookup]
    rw [if_neg (fun h => hq (by rw [h]; exact List.mem_cons_self q F))]
    exact ih q (fun h => hq (List.mem_cons_of_mem a h))

lemma alUpdate_map_of_mem {α : Type} (g : String → α) (v : α) :
    ∀ (F : List String) (q : String), F.Nodup → q ∈ F →
      alUpdate (F.map (fun x => (x, g x))) q v =
        F.map (fun x => (x, if x = q then v else g x)) := by
  intro F
  induction F with
  | nil => intro q _ hq; simp at hq
  | cons a F ih =>
    intro q hnd hq
    obtain ⟨hna, hndF⟩ := List.nodup_cons.mp hnd
    simp only [List.map_cons, alUpdate]
    by_cases ha : a = q
    · rw [if_pos ha, ha, if_pos rfl]
      congr 1
      apply List.map_congr_left
      intro x hx
      rw [if_neg (fun h => hna (show a ∈ F by rw [ha.trans h.symm]; exact hx))]
    · rw [if_neg ha, if_neg ha, ih q hndF
        (by rcases List.mem_cons.mp hq with h | h; exact absurd h.symm ha; exact h)]

lemma alUpdate_map_of_not_mem {α : Type} (g : String → α) (v : α) :
    ∀ (F : List String) (q : String), q ∉ F →
      alUpdate (F.map (fun x => (x, g x))) q v =
        F.map (fun x => (x, g x)) ++ [(q, v)] := by
  intro F
  induction F with
  | nil => intro q _; rfl
  | cons a F ih =>
    intro q hq
    simp only [List.map_cons, alUpdate]
    rw [if_neg (fun h => hq (by rw [h]; exact List.mem_cons_self q F)),
      ih q (fun h => hq (List.mem_cons_of_mem a h))]
    rfl

lemma mem_foldl_firstOcc (x : String) :
    ∀ (l acc : List String),
      x ∈ l.foldl (fun acc q => if q ∈ acc then acc else acc ++ [q]) acc ↔
        x ∈ acc ∨ x ∈ l := by
  intro l
  induction l with
  | nil => intro acc; simp
  | cons a l ih =>
    intro acc
    simp only [List.foldl_cons]
    rw [ih]
    by_cases ha : a ∈ acc
    · rw [if_pos ha]
      constructor
      · rintro (h | h)
        · exact Or.inl h
        · exact Or.inr (List.mem_cons_of_mem a h)
      · rintro (h | h)
        · exact Or.inl h
        · rcases List.mem_cons.mp h with h | h
          · exact Or.inl (h ▸ ha)
          · exact Or.inr h
    · rw [if_neg ha]
      constructor
      · rintro (h | h)
        · rcases List.mem_append.mp h with h | h
          · exact Or.inl h
          · simp at h
            exact Or.inr (by rw [h]; exact List.mem_cons_self a l)
        · exact Or.inr (List.mem_cons_of_mem a h)
      · rintro (h | h)
        · exact Or.inl (List.mem_append.mpr (Or.inl h))
        · rcases List.mem_cons.mp h with h | h
          · exact Or.inl (List.mem_append.mpr (Or.inr (by simp [h])))
          · exact Or.inr h

lemma mem_firstOccurrences (x : String) (l : List String) :
    x ∈ firstOccurrences l ↔ x ∈ l := by
  rw [firstOccurrences, mem_foldl_firstOcc]
  simp

lemma nodup_foldl_firstOcc :
    ∀ (l acc : List String), acc.Nodup →
      (l.foldl (fun acc q => if q ∈ acc then acc else acc ++ [q]) acc).Nodup := by
  intro l
  induction l with
  | nil => intro acc h; simpa using h
  | cons a l ih =>
    intro acc h
    simp only [List.foldl_cons]
    by_cases ha : a ∈ acc
    · rw [if_pos ha]; exact ih acc h
    · rw [if_neg ha]
      refine ih _ (List.nodup_append.mpr ⟨h, List.nodup_singleton a, ?_⟩)
      intro x hx hx'
      simp at hx'
      rw [hx'] at hx
      exact ha hx

lemma nodup_firstOccurrences (l : List String) : (firstOccurrences l).Nodup :=
  nodup_foldl_firstOcc l [] List.nodup_nil

lemma firstOccurrences_append_singleton (l : List String) (x : String) :
    firstOccurrences (l ++ [x]) =
      if x ∈ firstOccurrences l then firstOccurrences l
      else firstOccurrences l ++ [x] := by
  rw [firstOccurrences, List.foldl_append]
  rfl

/-! ## Characterisation of the table built by `add_table` -/

lemma Hit.ofRow_query (sample : String) (r : Row) :
    (Hit.ofRow sample r).query = r.qseqid := rfl

lemma Hit.ofRow_hit (sample : String) (r : Row) :
    (Hit.ofRow sample r).hit = r.qseqid ++ "@" ++ sample := rfl

lemma suffixHits_append (sample : String) (r : Row) :
    ∀ (A : List Row) (k : Nat),
      suffixHits sample k (A ++ [r]) =
        suffixHits sample k A ++ [suffixedHit sample r (k + A.length)] := by
  intro A
  induction A with
  | nil => intro k; simp [suffixHits]
  | cons a A ih =>
    intro k
    have hc : k + 1 + A.length = k + (A.length + 1) := by omega
    show suffixedHit sample a k :: suffixHits sample (k + 1) (A ++ [r]) =
      suffixedHit sample a k ::
        (suffixHits sample (k + 1) A ++ [suffixedHit sample r (k + (A.length + 1))])
    rw [ih (k + 1), hc]

lemma suffixHits_length (sample : String) :
    ∀ (A : List Row) (k : Nat), (suffixHits sample k A).length = A.length := by
  intro A
  induction A with
  | nil => intro k; rfl
  | cons a A ih => intro k; simp [suffixHits, ih]

/-- The central invariant of the `add_table` loop: after processing any list
of rows, the accumulator holds one entry per distinct query, keyed in first-
observation order, whose value is the canonical hit list and counter of that
query's rows. -/
lemma build_acc_eq (sample : String) (rows : List Row) :
    rows.foldl (add_table_step sample) [] =
      (firstOccurrences (rows.map Row.qseqid)).map
        (fun q => (q, canonEntry sample (rows.filter (fun r' => r'.qseqid = q)))) := by
  induction rows using List.reverseRecOn with
  | nil => rfl
  | append_singleton rs r ih =>
    rw [List.foldl_append, List.foldl_cons, List.foldl_nil, ih]
    have hmapapp : (rs ++ [r]).map Row.qseqid = rs.map Row.qseqid ++ [r.qseqid] := by simp
    by_cases hmem : r.qseqid ∈ firstOccurrences (rs.map Row.qseqid)
    · -- the query has been seen before
      have hFO : firstOccurrences ((rs ++ [r]).map Row.qseqid) =
          firstOccurrences (rs.map Row.qseqid) := by
        rw [hmapapp, firstOccurrences_append_singleton, if_pos hmem]
      have hne : rs.filter (fun r' => r'.qseqid = r.qseqid) ≠ [] := by
        have hq : r.qseqid ∈ rs.map Row.qseqid :=
          (mem_firstOccurrences _ _).mp hmem
        obtain ⟨r', hr', hq'⟩ := List.mem_map.mp hq
        intro hnil
        have : r' ∈ rs.filter (fun r'' => r''.qseqid = r.qseqid) :=
          List.mem_filter.mpr ⟨hr', by simp [hq']⟩
        rw [hnil] at this
        simp at this
      have hlook2 : alLookup ((firstOccurrences (rs.map Row.qseqid)).map
          (fun q => (q, canonEntry sample (rs.filter (fun r' => r'.qseqid = q))))) r.qseqid =
          some (canonHits sample (rs.filter (fun r' => r'.qseqid = r.qseqid)),
                (rs.filter (fun r' => r'.qseqid = r.qseqid)).length) :=
        alLookup_map_of_mem _ _ _ hmem
      simp only [add_table_step, Hit.ofRow_query, hlook2]
      rw [alUpdate_map_of_mem _ _ _ _ (nodup_firstOccurrences _) hmem, hFO]
      apply List.map_congr_left
      intro q hq
      by_cases hqq : q = r.qseqid
      · subst hqq
        rw [if_pos rfl]
        have hfilt : (rs ++ [r]).filter (fun r' => r'.qseqid = r.qseqid) =
            rs.filter (fun r' => r'.qseqid = r.qseqid) ++ [r] := by
          rw [List.filter_append, List.filter_cons, if_pos (by simp)]
          rfl
        rw [hfilt]
        simp only [Prod.mk.injEq]
        refine ⟨trivial, ?_⟩
        simp only [canonEntry, Prod.mk.injEq]
        set qrs := rs.filter (fun r' => r'.qseqid = r.qseqid) with hqrs
        rcases Nat.lt_or_ge qrs.length 2 with hlen | hlen
        · -- exactly one previous hit: the pivotal retroactive relabelling
          have h1 : qrs.length = 1 := by
            rcases Nat.eq_zero_or_pos qrs.length with h0 | h0
            · exact absurd (List.length_eq_zero.mp h0) hne
            · omega
          obtain ⟨r0, hr0⟩ := List.length_eq_one.mp h1
          rw [hr0]
          refine ⟨?_, by simp⟩
          have hcanon1 : canonHits sample [r0] = [Hit.ofRow sample r0] := by
            simp [canonHits]
          have hcanon2 : canonHits sample ([r0] ++ [r]) =
              [suffixedHit sample r0 1, suffixedHit sample r ((1 : Nat) + 1)] := by
            simp [canonHits, suffixHits]
          rw [hcanon1, hcanon2]
          simp only [List.length_singleton, if_pos rfl]
          rfl
        · -- two or more previous hits: append with the next suffix
          have hgt : ¬ qrs.length ≤ 1 := by omega
          have h1ne : ¬ qrs.length = 1 := by omega
          have hgt' : ¬ (qrs ++ [r]).length ≤ 1 := by
            simp only [List.length_append, List.length_singleton]
            omega
          have hcanon : canonHits sample qrs = suffixHits sample 1 qrs := by
            simp [canonHits, hgt]
          have hcanon' : canonHits sample (qrs ++ [r]) =
              suffixHits sample 1 qrs ++ [suffixedHit sample r (1 + qrs.length)] := by
            rw [canonHits, if_neg hgt', suffixHits_append]
          rw [hcanon, hcanon', if_neg h1ne]
          refine ⟨?_, by simp⟩
          rw [Nat.add_comm 1 qrs.length]
          rfl
      · rw [if_neg hqq]
        have hfilt : (rs ++ [r]).filter (fun r' => r'.qseqid = q) =
            rs.filter (fun r' => r'.qseqid = q) := by
          rw [List.filter_append, List.filter_cons,
            if_neg (by simp only [decide_eq_true_eq]; intro h; exact hqq h.symm)]
          simp
        rw [hfilt]
    · -- a fresh query: a new singleton entry is appended
      have hFO : firstOccurrences ((rs ++ [r]).map Row.qseqid) =
          firstOccurrences (rs.map Row.qseqid) ++ [r.qseqid] := by
        rw [hmapapp, firstOccurrences_append_singleton, if_neg hmem]
      have hlook2 : alLookup ((firstOccurrences (rs.map Row.qseqid)).map
          (fun q => (q, canonEntry sample (rs.filter (fun r' => r'.qseqid = q))))) r.qseqid =
          none :=
        alLookup_map_of_not_mem _ _ _ hmem
      simp only [add_table_step, Hit.ofRow_query, hlook2]
      rw [alUpdate_map_of_not_mem _ _ _ _ hmem, hFO, List.map_append]
      congr 1
      · apply List.map_congr_left
        intro q hq
        have hqq : ¬ r.qseqid = q := by
          intro h
          rw [h] at hmem
          exact hmem hq
        have hfilt : (rs ++ [r]).filter (fun r' => r'.qseqid = q) =
            rs.filter (fun r' => r'.qseqid = q) := by
          rw [List.filter_append, List.filter_cons,
            if_neg (by simp only [decide_eq_true_eq]; exact hqq)]
          simp
        rw [hfilt]
      · have hnil : rs.filter (fun r' => r'.qseqid = r.qseqid) = [] := by
          rw [List.filter_eq_nil_iff]
          intro a ha
          simp only [decide_eq_true_eq]
          intro hqa
          exact hmem ((mem_firstOccurrences _ _).mpr (List.mem_map.mpr ⟨a, ha, hqa⟩))
        have hfilt : (rs ++ [r]).filter (fun r' => r'.qseqid = r.qseqid) = [r] := by
          rw [List.filter_append, hnil, List.filter_cons, if_pos (by simp)]
          rfl
        simp only [List.map_cons, List.map_nil, hfilt]
        rfl

/-- The function `build_table` in closed form: one entry per distinct query in first-
observation order, holding that query's canonical hit list. -/
lemma build_table_eq (sample : String) (rows : List Row) :
    build_table sample rows =
      (firstOccurrences (rows.map Row.qseqid)).map
        (fun q => (q, canonHits sample (rows.filter (fun r' => r'.qseqid = q)))) := by
  rw [build_table, build_acc_eq, List.map_map]
  rfl

lemma mem_map_of_filter_ne (rows : List Row) (q : String)
    (h : rows.filter (fun r' => r'.qseqid = q) ≠ []) : q ∈ rows.map Row.qseqid := by
  cases hf : rows.filter (fun r' => r'.qseqid = q) with
  | nil => exact absurd hf h
  | cons a t =>
    have ha : a ∈ rows.filter (fun r' => r'.qseqid = q) := by rw [hf]; simp
    obtain ⟨har, haq⟩ := List.mem_filter.mp ha
    exact List.mem_map.mpr ⟨a, har, by simpa using haq⟩

lemma lookup_build_table (sample : String) (rows : List Row) (q : String)
    (h : q ∈ rows.map Row.qseqid) :
    alLookup (build_table sample rows) q =
      some (canonHits sample (rows.filter (fun r' => r'.qseqid = q))) := by
  rw [build_table_eq]
  exact alLookup_map_of_mem _ _ _ ((mem_firstOccurrences _ _).mpr h)

lemma lookup_build_table_none (sample : String) (rows : List Row) (q : String)
    (h : q ∉ rows.map Row.qseqid) :
    alLookup (build_table sample rows) q = none := by
  rw [build_table_eq]
  exact alLookup_map_of_not_mem _ _ _ (fun hm => h ((mem_firstOccurrences _ _).mp hm))

lemma canonHits_length (sample : String) (qrows : List Row) :
    (canonHits sample qrows).length = qrows.length := by
  rw [canonHits]
  by_cases h : qrows.length ≤ 1
  · rw [if_pos h, List.length_map]
  · rw [if_neg h, suffixHits_length]

lemma suffixHits_map_hit (sample q : String) :
    ∀ (A : List Row) (k : Nat), (∀ r ∈ A, r.qseqid = q) →
      (suffixHits sample k A).map Hit.hit =
        (List.range' k A.length).map (fun n => q ++ "@" ++ sample ++ ":" ++ Nat.repr n) := by
  intro A
  induction A with
  | nil => intro k _; rfl
  | cons a A ih =>
    intro k hall
    have ha : a.qseqid = q := hall a (by simp)
    show Hit.hit (suffixedHit sample a k) :: (suffixHits sample (k + 1) A).map Hit.hit = _
    rw [ih (k + 1) (fun r hr => hall r (by simp [hr])), List.length_cons, List.range'_succ,
      List.map_cons]
    congr 1
    show a.qseqid ++ "@" ++ sample ++ ":" ++ Nat.repr k = _
    rw [ha]

/-! ## Claim theorems: `add_table` identifier assignment -/

/-- C1. For every sample and every query with `N ≥ 2` hits among the input
rows, the stored hit list for that query is exactly the observed rows' hits
suffixed `:1 .. :N` in observation order (`suffixHits sample 1`), each built
from its row by exactly one `set_hitid`; equivalently the stored ids are
`query@sample:1 .. query@sample:N` in order.  Because this holds for every
row list, it holds for every prefix of the input as well: while a query has a
single hit its id is unsuffixed (see the single-hit theorem), and the moment
the second row arrives the first hit is retroactively relabelled `:1` — it is
never rewritten again, later hits receiving their final suffix at creation. -/
theorem multi_hit_ids_suffixed_in_order (sample : String) (rows : List Row) (q : String)
    (hN : 2 ≤ (rows.filter (fun r' => r'.qseqid = q)).length) :
    alLookup (build_table sample rows) q =
      some (suffixHits sample 1 (rows.filter (fun r' => r'.qseqid = q))) ∧
    (suffixHits sample 1 (rows.filter (fun r' => r'.qseqid = q))).map Hit.hit =
      (List.range' 1 (rows.filter (fun r' => r'.qseqid = q)).length).map
        (fun n => q ++ "@" ++ sample ++ ":" ++ Nat.repr n) := by
  have hne : rows.filter (fun r' => r'.qseqid = q) ≠ [] := by
    intro h
    rw [h] at hN
    simp at hN
  have hmem : q ∈ rows.map Row.qseqid := mem_map_of_filter_ne rows q hne
  constructor
  · rw [lookup_build_table sample rows q hmem, canonHits, if_neg (by omega)]
  · exact suffixHits_map_hit sample q _ 1
      (fun r hr => by simpa using (List.mem_filter.mp hr).2)

/-- Witness for the multi-hit theorem: the spec's own example, two rows for
`geneA` in sample `S1`. -/
theorem multi_hit_ids_suffixed_in_order_witness :
    2 ≤ (([⟨"geneA", "c1", [], "AC"⟩, ⟨"geneA", "c2", [], "GT"⟩] : List Row).filter
        (fun r' => r'.qseqid = "geneA")).length ∧
    (alLookup (build_table "S1" [⟨"geneA", "c1", [], "AC"⟩, ⟨"geneA", "c2", [], "GT"⟩]) "geneA" =
      some (suffixHits "S1" 1 (([⟨"geneA", "c1", [], "AC"⟩, ⟨"geneA", "c2", [], "GT"⟩] : List Row).filter
        (fun r' => r'.qseqid = "geneA"))) ∧
    ((suffixHits "S1" 1 (([⟨"geneA", "c1", [], "AC"⟩, ⟨"geneA", "c2", [], "GT"⟩] : List Row).filter
        (fun r' => r'.qseqid = "geneA"))).map Hit.hit =
      (List.range' 1 (([⟨"geneA", "c1", [], "AC"⟩, ⟨"geneA", "c2", [], "GT"⟩] : List Row).filter
        (fun r' => r'.qseqid = "geneA")).length).map
        (fun n => "geneA" ++ "@" ++ "S1" ++ ":" ++ Nat.repr n))) :=
  ⟨by decide, multi_hit_ids_suffixed_in_order "S1"
    [⟨"geneA", "c1", [], "AC"⟩, ⟨"geneA", "c2", [], "GT"⟩] "geneA" (by decide)⟩

/-- C3. A query with exactly one hit among a sample's rows is stored with the
plain constructor hit, whose id is the unsuffixed `query@sample`. -/
theorem single_hit_id_unsuffixed (sample : String) (rows : List Row) (q : String) (r : Row)
    (h1 : rows.filter (fun r' => r'.qseqid = q) = [r]) :
    alLookup (build_table sample rows) q = some [Hit.ofRow sample r] ∧
    (Hit.ofRow sample r).hit = q ++ "@" ++ sample := by
  have hmem : q ∈ rows.map Row.qseqid := mem_map_of_filter_ne rows q (by rw [h1]; simp)
  have hr : r ∈ rows.filter (fun r' => r'.qseqid = q) := by rw [h1]; simp
  have hq : r.qseqid = q := by simpa using (List.mem_filter.mp hr).2
  constructor
  · rw [lookup_build_table sample rows q hmem, h1]
    simp [canonHits]
  · rw [Hit.ofRow_hit, hq]

/-- Witness for the single-hit theorem: one `geneB` row in sample `S2`. -/
theorem single_hit_id_unsuffixed_witness :
    (([⟨"geneB", "c7", [], "TT"⟩] : List Row).filter (fun r' => r'.qseqid = "geneB") =
      [⟨"geneB", "c7", [], "TT"⟩]) ∧
    (alLookup (build_table "S2" [⟨"geneB", "c7", [], "TT"⟩]) "geneB" =
      some [Hit.ofRow "S2" ⟨"geneB", "c7", [], "TT"⟩] ∧
    (Hit.ofRow "S2" (⟨"geneB", "c7", [], "TT"⟩ : Row)).hit = "geneB" ++ "@" ++ "S2") :=
  ⟨by decide, single_hit_id_unsuffixed "S2" [⟨"geneB", "c7", [], "TT"⟩] "geneB"
    ⟨"geneB", "c7", [], "TT"⟩ (by decide)⟩

/-- C10.  The table built from any list of rows keys exactly the queries seen,
in first-observation order; each key's list is the canonical hit list of that
query's rows, non-empty, with one hit per row, in the order received. -/
theorem add_table_preserves_rows (sample : String) (rows : List Row) :
    (build_table sample rows).map Prod.fst = firstOccurrences (rows.map Row.qseqid) ∧
    (∀ q : String, q ∈ (build_table sample rows).map Prod.fst ↔ q ∈ rows.map Row.qseqid) ∧
    (∀ (q : String) (l : List Hit), alLookup (build_table sample rows) q = some l →
      l = canonHits sample (rows.filter (fun r' => r'.qseqid = q)) ∧
      l.length = (rows.filter (fun r' => r'.qseqid = q)).length ∧ l ≠ []) := by
  have hkeys : (build_table sample rows).map Prod.fst =
      firstOccurrences (rows.map Row.qseqid) := by
    rw [build_table_eq, List.map_map]
    exact List.map_id _
  refine ⟨hkeys, ?_, ?_⟩
  · intro q
    rw [hkeys]
    exact mem_firstOccurrences q _
  · intro q l hl
    by_cases hmem : q ∈ rows.map Row.qseqid
    · rw [lookup_build_table sample rows q hmem] at hl
      obtain rfl : canonHits sample (rows.filter (fun r' => r'.qseqid = q)) = l :=
        Option.some.inj hl
      refine ⟨rfl, canonHits_length sample _, ?_⟩
      intro hnil
      have hflen : (rows.filter (fun r' => r'.qseqid = q)).length = 0 := by
        rw [← canonHits_length sample, hnil]
        rfl
      obtain ⟨r', hr', hq'⟩ := List.mem_map.mp hmem
      have : r' ∈ rows.filter (fun r'' => r''.qseqid = q) :=
        List.mem_filter.mpr ⟨hr', by simp [hq']⟩
      rw [List.length_eq_zero.mp hflen] at this
      simp at this
    · rw [lookup_build_table_none sample rows q hmem] at hl
      exact absurd hl (by simp)

/-- Witness for the row-preservation invariant, at a two-query table. -/
theorem add_table_preserves_rows_witness :
    ((build_table "S1" [⟨"gA", "c1", [], "A"⟩, ⟨"gB", "c2", [], "C"⟩]).map Prod.fst =
      firstOccurrences (([⟨"gA", "c1", [], "A"⟩, ⟨"gB", "c2", [], "C"⟩] : List Row).map Row.qseqid) ∧
    (∀ q : String, q ∈ (build_table "S1" [⟨"gA", "c1", [], "A"⟩, ⟨"gB", "c2", [], "C"⟩]).map Prod.fst ↔
      q ∈ ([⟨"gA", "c1", [], "A"⟩, ⟨"gB", "c2", [], "C"⟩] : List Row).map Row.qseqid) ∧
    (∀ (q : String) (l : List Hit),
      alLookup (build_table "S1" [⟨"gA", "c1", [], "A"⟩, ⟨"gB", "c2", [], "C"⟩]) q = some l →
      l = canonHits "S1" (([⟨"gA", "c1", [], "A"⟩, ⟨"gB", "c2", [], "C"⟩] : List Row).filter
        (fun r' => r'.qseqid = q)) ∧
      l.length = (([⟨"gA", "c1", [], "A"⟩, ⟨"gB", "c2", [], "C"⟩] : List Row).filter
        (fun r' => r'.qseqid = q)).length ∧ l ≠ [])) :=
  add_table_preserves_rows "S1" [⟨"gA", "c1", [], "A"⟩, ⟨"gB", "c2", [], "C"⟩]

/-! ## Claim theorem: uniqueness of hit ids inside a sample -/

lemma canonHits_map_hit (sample q : String) (qrows : List Row)
    (hall : ∀ r ∈ qrows, r.qseqid = q) :
    (canonHits sample qrows).map Hit.hit =
      (optIndices qrows.length).map (fun o => idOf sample (q, o)) := by
  rw [canonHits, optIndices]
  by_cases h : qrows.length ≤ 1
  · rw [if_pos h, if_pos h]
    cases qrows with
    | nil => rfl
    | cons r t =>
      have ht : t = [] := by
        have hlen : t.length = 0 := by
          simp only [List.length_cons] at h
          omega
        exact List.length_eq_zero.mp hlen
      subst ht
      have hq : r.qseqid = q := hall r (by simp)
      show [(Hit.ofRow sample r).hit] = [idOf sample (q, none)]
      rw [Hit.ofRow_hit, hq]
      rfl
  · rw [if_neg h, if_neg h, List.map_map]
    rw [suffixHits_map_hit sample q qrows 1 hall]
    apply List.map_congr_left
    intro n _
    rfl

lemma table_ids_build (sample : String) (rows : List Row) :
    table_ids (build_table sample rows) =
      ((firstOccurrences (rows.map Row.qseqid)).map (fun q =>
        (optIndices ((rows.filter (fun r' => r'.qseqid = q)).length)).map
          (fun o => idOf sample (q, o)))).flatten := by
  rw [table_ids, build_table_eq, List.map_map]
  congr 1
  apply List.map_congr_left
  intro q _
  exact canonHits_map_hit sample q _
    (fun r hr => by simpa using (List.mem_filter.mp hr).2)

lemma optIndices_nodup (n : Nat) : (optIndices n).Nodup := by
  rw [optIndices]
  by_cases h : n ≤ 1
  · rw [if_pos h]
    interval_cases n
    · simp
    · simp
  · rw [if_neg h]
    exact List.Nodup.map (Option.some_injective _) (List.nodup_range' 1 n)

lemma nodup_flatten_ids (sample : String) (g : String → List (Option Nat))
    (hg : ∀ q, (g q).Nodup) :
    ∀ (F : List String), F.Nodup →
      ((F.map (fun q => (g q).map (fun o => idOf sample (q, o)))).flatten).Nodup := by
  intro F
  induction F with
  | nil => intro _; simp
  | cons a F ih =>
    intro hnd
    obtain ⟨hna, hndF⟩ := List.nodup_cons.mp hnd
    rw [List.map_cons, List.flatten_cons, List.nodup_append]
    refine ⟨?_, ih hndF, ?_⟩
    · refine List.Nodup.map ?_ (hg a)
      intro o1 o2 ho
      exact congrArg Prod.snd (idOf_injective sample ho)
    · intro x hx hx'
      obtain ⟨o1, ho1, rfl⟩ := List.mem_map.mp hx
      obtain ⟨lx, hlx, hxlx⟩ := List.mem_flatten.mp hx'
      obtain ⟨qb, hqb, rfl⟩ := List.mem_map.mp hlx
      obtain ⟨o2, ho2, heq⟩ := List.mem_map.mp hxlx
      have hpair := idOf_injective sample heq
      have hab : qb = a := congrArg Prod.fst hpair
      rw [hab] at hqb
      exact hna hqb

/-- C4.  Invariant: after `add_table` builds a table from any list of rows,
the stored hit ids are pairwise distinct within the sample — across queries
thanks to the `@`-separator (no decimal suffix can contain `@`), and within a
query thanks to the distinct numeric suffixes. -/
theorem hit_ids_nodup_within_sample (sample : String) (rows : List Row) :
    (table_ids (build_table sample rows)).Nodup := by
  rw [table_ids_build]
  exact nodup_flatten_ids sample _ (fun q => optIndices_nodup _) _
    (nodup_firstOccurrences _)

/-! ## Store and file-system lemmas -/

lemma alLookup_alUpdate_self {α : Type} :
    ∀ (fs : List (String × α)) (k : String) (v : α),
      alLookup (alUpdate fs k v) k = some v := by
  intro fs
  induction fs with
  | nil => intro k v; simp [alUpdate, alLookup]
  | cons e rest ih =>
    intro k v
    rw [alUpdate]
    by_cases h : e.1 = k
    · rw [if_pos h, alLookup, if_pos h]
    · rw [if_neg h, alLookup, if_neg h]
      exact ih k v

lemma alUpdate_alUpdate_same {α : Type} :
    ∀ (fs : List (String × α)) (k : String) (v : α),
      alUpdate (alUpdate fs k v) k v = alUpdate fs k v := by
  intro fs
  induction fs with
  | nil => intro k v; simp [alUpdate]
  | cons e rest ih =>
    intro k v
    rw [alUpdate]
    by_cases h : e.1 = k
    · rw [if_pos h, alUpdate, if_pos h]
    · rw [if_neg h, alUpdate, if_neg h, ih]

lemma alUpdate_of_keys_not_mem {α : Type} :
    ∀ (fs : List (String × α)) (k : String) (v : α), k ∉ fs.map Prod.fst →
      alUpdate fs k v = fs ++ [(k, v)] := by
  intro fs
  induction fs with
  | nil => intro k v _; rfl
  | cons e rest ih =>
    intro k v h
    rw [alUpdate, if_neg (fun he => h (by rw [← he]; simp)), ih k v (fun hm => h (by simp [hm]))]
    rfl

lemma alUpdate_keys_of_mem {α : Type} :
    ∀ (fs : List (String × α)) (k : String) (v : α), k ∈ fs.map Prod.fst →
      (alUpdate fs k v).map Prod.fst = fs.map Prod.fst := by
  intro fs
  induction fs with
  | nil => intro k v h; simp at h
  | cons e rest ih =>
    intro k v h
    rw [alUpdate]
    by_cases he : e.1 = k
    · rw [if_pos he]
      rfl
    · rw [if_neg he, List.map_cons, List.map_cons, ih k v]
      rw [List.map_cons] at h
      rcases List.mem_cons.mp h with h1 | h1
      · exact absurd h1.symm he
      · exact h1

lemma compile_data_rows_cons (e : String × Option HitTable) (rest : Store) :
    compile_data_rows (e :: rest) =
      (match e.2 with
       | some t => t.foldr (fun p r2 => p.2.map (compile_row e.1) ++ r2) []
       | none => []) ++ compile_data_rows rest := rfl

lemma compile_warnings_cons (e : String × Option HitTable) (rest : Store) :
    compile_warnings (e :: rest) =
      (match e.2 with
       | some _ => []
       | none => ["Warning (compile_tables): no query sequence was found in sample " ++
                  e.1 ++ "."]) ++ compile_warnings rest := rfl

lemma write_warnings_cons (e : String × Option HitTable) (rest : Store) (query : String) :
    write_warnings (e :: rest) query =
      (match e.2 with
       | some t =>
           match alLookup t query with
           | some _ => []
           | none => ["Warning (write_hit_sequences): query sequence " ++ query ++
                      " was not found in sample " ++ e.1 ++ "."]
       | none => ["Warning (write_hit_sequences): no query sequence was found in sample " ++
                  e.1 ++ "."]) ++ write_warnings rest query := rfl

lemma write_content_cons (e : String × Option HitTable) (rest : Store) (query : String) :
    write_content (e :: rest) query =
      (match e.2 with
       | some t =>
           match alLookup t query with
           | some hits => String.join (hits.map Hit.write_seq)
           | none => ""
       | none => "") ++ write_content rest query := rfl

lemma compile_data_rows_append (l1 l2 : Store) :
    compile_data_rows (l1 ++ l2) = compile_data_rows l1 ++ compile_data_rows l2 := by
  induction l1 with
  | nil => rfl
  | cons e rest ih =>
    rw [List.cons_append, compile_data_rows_cons, compile_data_rows_cons, ih,
      List.append_assoc]

lemma compile_warnings_append (l1 l2 : Store) :
    compile_warnings (l1 ++ l2) = compile_warnings l1 ++ compile_warnings l2 := by
  induction l1 with
  | nil => rfl
  | cons e rest ih =>
    rw [List.cons_append, compile_warnings_cons, compile_warnings_cons, ih,
      List.append_assoc]

lemma inner_rows_length (s : String) : ∀ (t : HitTable),
    (t.foldr (fun p r2 => p.2.map (compile_row s) ++ r2) []).length =
      (t.map (fun p => p.2.length)).sum := by
  intro t
  induction t with
  | nil => rfl
  | cons p t ih =>
    show (p.2.map (compile_row s) ++ _).length = _
    rw [List.length_append, List.length_map, ih, List.map_cons, List.sum_cons]

lemma compile_data_rows_length (store : Store) :
    (compile_data_rows store).length = store_hit_count store := by
  induction store with
  | nil => rfl
  | cons e rest ih =>
    rw [compile_data_rows_cons, List.length_append, ih]
    have hs : store_hit_count (e :: rest) =
        (match e.2 with
         | some t => (t.map (fun p => p.2.length)).sum
         | none => 0) + store_hit_count rest := by
      simp [store_hit_count]
    rw [hs]
    congr 1
    rcases e with ⟨s, t⟩
    cases t with
    | none => rfl
    | some t => exact inner_rows_length s t

lemma write_warnings_missing_mem (query : String) :
    ∀ (store : Store) (s : String) (t : HitTable), (s, some t) ∈ store →
      alLookup t query = none →
      ("Warning (write_hit_sequences): query sequence " ++ query ++
        " was not found in sample " ++ s ++ ".") ∈ write_warnings store query := by
  intro store
  induction store with
  | nil => intro s t h _; simp at h
  | cons e rest ih =>
    intro s t h hl
    rw [write_warnings_cons]
    rcases List.mem_cons.mp h with he | he
    · rw [← he]
      simp [hl]
    · exact List.mem_append.mpr (Or.inr (ih s t he hl))

lemma write_warnings_absent_mem (query : String) :
    ∀ (store : Store) (s : String), (s, (none : Option HitTable)) ∈ store →
      ("Warning (write_hit_sequences): no query sequence was found in sample " ++ s ++ ".")
        ∈ write_warnings store query := by
  intro store
  induction store with
  | nil => intro s h; simp at h
  | cons e rest ih =>
    intro s h
    rw [write_warnings_cons]
    rcases List.mem_cons.mp h with he | he
    · rw [← he]
      simp
    · exact List.mem_append.mpr (Or.inr (ih s he))

lemma compile_warnings_absent_mem :
    ∀ (store : Store) (s : String), (s, (none : Option HitTable)) ∈ store →
      ("Warning (compile_tables): no query sequence was found in sample " ++ s ++ ".")
        ∈ compile_warnings store := by
  intro store
  induction store with
  | nil => intro s h; simp at h
  | cons e rest ih =>
    intro s h
    rw [compile_warnings_cons]
    rcases List.mem_cons.mp h with he | he
    · rw [← he]
      simp
    · exact List.mem_append.mpr (Or.inr (ih s he))

lemma write_content_empty_of_absent (query : String) :
    ∀ (store : Store),
      (∀ e ∈ store, ∀ t, e.2 = some t → alLookup t query = none) →
      write_content store query = "" := by
  intro store
  induction store with
  | nil => intro _; rfl
  | cons e rest ih =>
    intro h
    rw [write_content_cons, ih (fun e' he' => h e' (by simp [he']))]
    rcases e with ⟨s, t⟩
    cases t with
    | none => rfl
    | some t =>
      have hl := h (s, some t) (by simp) t rfl
      simp [hl]

/-! ## Claim theorems: store-level behaviour -/

/-- C2 counterexample.  `add_table` contains no duplicate-sample check: adding
sample `S1` a second time silently succeeds — the call is well-defined, the
earlier table is replaced by the new value, and the store still holds a single
entry.  This refutes the claim that a second insertion fails. -/
theorem duplicate_sample_silently_replaced :
    add_table (add_table [] "S1" (some [⟨"geneA", "c1", [], "AC"⟩])) "S1" none =
      [("S1", (none : Option HitTable))] ∧
    table_num (add_table (add_table [] "S1" (some [⟨"geneA", "c1", [], "AC"⟩])) "S1" none) = 1 ∧
    alLookup (add_table [] "S1" (some [⟨"geneA", "c1", [], "AC"⟩])) "S1" ≠
      alLookup (add_table (add_table [] "S1" (some [⟨"geneA", "c1", [], "AC"⟩])) "S1" none)
        "S1" := by
  refine ⟨rfl, rfl, ?_⟩
  decide

/-- C2 amended.  A second `add_table` call for a sample already in the store
silently replaces that sample's entry, last write wins: the sample list and
count are unchanged and the entry now holds the new table. -/
theorem duplicate_sample_overwrites (store : Store) (s : String)
    (t : Option (List Row)) (h : s ∈ sample_names store) :
    sample_names (add_table store s t) = sample_names store ∧
    table_num (add_table store s t) = table_num store ∧
    alLookup (add_table store s t) s =
      some (match t with
            | some rows => some (build_table s rows)
            | none => none) := by
  have hnames : ∀ v, (alUpdate store s v).map Prod.fst = store.map Prod.fst :=
    fun v => alUpdate_keys_of_mem store s v h
  cases t with
  | some rows =>
    refine ⟨hnames _, ?_, alLookup_alUpdate_self store s _⟩
    show (alUpdate store s _).length = store.length
    rw [← List.length_map (alUpdate store s _) Prod.fst, hnames, List.length_map]
  | none =>
    refine ⟨hnames _, ?_, alLookup_alUpdate_self store s _⟩
    show (alUpdate store s _).length = store.length
    rw [← List.length_map (alUpdate store s _) Prod.fst, hnames, List.length_map]

/-- Witness for the amended duplicate-insertion behaviour. -/
theorem duplicate_sample_overwrites_witness :
    ("S1" ∈ sample_names [("S1", (none : Option HitTable))]) ∧
    (sample_names (add_table [("S1", (none : Option HitTable))] "S1" none) =
      sample_names [("S1", (none : Option HitTable))] ∧
    table_num (add_table [("S1", (none : Option HitTable))] "S1" none) =
      table_num [("S1", (none : Option HitTable))] ∧
    alLookup (add_table [("S1", (none : Option HitTable))] "S1" none) "S1" =
      some (match (none : Option (List Row)) with
            | some rows => some (build_table "S1" rows)
            | none => none)) :=
  ⟨by decide, duplicate_sample_overwrites [("S1", none)] "S1" none (by decide)⟩

/-- C5.  `compile_tables` writes `compiled_hits.tsv`: the file's content is
the header line `sample, hit, qseqid, sseqid, <attribute names>` followed by
the data rows — one row per stored hit in sample/table/hit order, holding the
sample name, the hit's id and its attribute values — and the number of data
rows equals the total hit count over the present tables; absent tables
contribute zero rows (and the function is total, so they cause no crash). -/
theorem compile_tables_output_shape (store : Store) (outdir : String) (fs : Fs) :
    alLookup (compile_tables store outdir fs).1 (outdir ++ "/" ++ "compiled_hits.tsv") =
      some (compile_content store) ∧
    compile_lines store = compile_header :: compile_data_rows store ∧
    compile_header =
      String.intercalate "\t" (["sample", "hit", "qseqid", "sseqid"] ++ HIT_ATTRS) ∧
    (compile_data_rows store).length = store_hit_count store :=
  ⟨alLookup_alUpdate_self fs _ _, rfl, rfl, compile_data_rows_length store⟩

/-- C6.  With no intervening `add_table`, a second `compile_tables` call is a
no-op on the file system (byte-identical file content), because each call
fully rewrites `compiled_hits.tsv` with a pure function of the store rather
than appending: the written content does not depend on the file's previous
content. -/
theorem compile_tables_idempotent (store : Store) (outdir : String) (fs fs' : Fs) :
    compile_tables store outdir ((compile_tables store outdir fs).1) =
      compile_tables store outdir fs ∧
    alLookup (compile_tables store outdir fs).1 (outdir ++ "/" ++ "compiled_hits.tsv") =
      alLookup (compile_tables store outdir fs').1 (outdir ++ "/" ++ "compiled_hits.tsv") := by
  constructor
  · show (alUpdate (alUpdate fs _ _) _ _, _) = (alUpdate fs _ _, _)
    rw [alUpdate_alUpdate_same]
  · show alLookup (alUpdate fs _ _) _ = alLookup (alUpdate fs' _ _) _
    rw [alLookup_alUpdate_self, alLookup_alUpdate_self]

/-- C7.  `write_hit_sequences` always (re)creates `<outdir>/<query>.fna`,
whatever the previous file system held; when no sample's table contains the
query the file is empty; a present table lacking the query, or an absent
table, yields only a non-fatal warning naming the sample while the remaining
samples are still processed. -/
theorem write_hit_sequences_always_writes (store : Store) (query outdir : String) (fs : Fs) :
    alLookup (write_hit_sequences store query outdir fs).1
      (outdir ++ "/" ++ (query ++ "." ++ "fna")) = some (write_content store query) ∧
    ((∀ e ∈ store, ∀ t : HitTable, e.2 = some t → alLookup t query = none) →
      write_content store query = "") ∧
    (∀ (s : String) (t : HitTable), (s, some t) ∈ store → alLookup t query = none →
      ("Warning (write_hit_sequences): query sequence " ++ query ++
        " was not found in sample " ++ s ++ ".") ∈ (write_hit_sequences store query outdir fs).2) ∧
    (∀ s : String, (s, (none : Option HitTable)) ∈ store →
      ("Warning (write_hit_sequences): no query sequence was found in sample " ++ s ++ ".")
        ∈ (write_hit_sequences store query outdir fs).2) :=
  ⟨alLookup_alUpdate_self fs _ _,
   write_content_empty_of_absent query store,
   fun s t h hl => write_warnings_missing_mem query store s t h hl,
   fun s h => write_warnings_absent_mem query store s h⟩

/-- Witness for the `write_hit_sequences` theorem: a store with one table
lacking `geneX` and one absent table, starting from a file system that
already holds a stale `geneX.fna`. -/
theorem write_hit_sequences_always_writes_witness :
    alLookup (write_hit_sequences [("S1", some [("geneA", [Hit.ofRow "S1" ⟨"geneA", "c1", [], "AC"⟩])]),
        ("S2", none)] "geneX" "out" [("out/geneX.fna", "stale")]).1
      ("out" ++ "/" ++ ("geneX" ++ "." ++ "fna")) =
      some (write_content [("S1", some [("geneA", [Hit.ofRow "S1" ⟨"geneA", "c1", [], "AC"⟩])]),
        ("S2", none)] "geneX") ∧
    ((∀ e ∈ ([("S1", some [("geneA", [Hit.ofRow "S1" ⟨"geneA", "c1", [], "AC"⟩])]),
        ("S2", none)] : Store), ∀ t : HitTable, e.2 = some t → alLookup t "geneX" = none) →
      write_content [("S1", some [("geneA", [Hit.ofRow "S1" ⟨"geneA", "c1", [], "AC"⟩])]),
        ("S2", none)] "geneX" = "") ∧
    (∀ (s : String) (t : HitTable),
      (s, some t) ∈ ([("S1", some [("geneA", [Hit.ofRow "S1" ⟨"geneA", "c1", [], "AC"⟩])]),
        ("S2", none)] : Store) → alLookup t "geneX" = none →
      ("Warning (write_hit_sequences): query sequence " ++ "geneX" ++
        " was not found in sample " ++ s ++ ".") ∈
        (write_hit_sequences [("S1", some [("geneA", [Hit.ofRow "S1" ⟨"geneA", "c1", [], "AC"⟩])]),
          ("S2", none)] "geneX" "out" [("out/geneX.fna", "stale")]).2) ∧
    (∀ s : String, (s, (none : Option HitTable)) ∈
        ([("S1", some [("geneA", [Hit.ofRow "S1" ⟨"geneA", "c1", [], "AC"⟩])]),
          ("S2", none)] : Store) →
      ("Warning (write_hit_sequences): no query sequence was found in sample " ++ s ++ ".") ∈
        (write_hit_sequences [("S1", some [("geneA", [Hit.ofRow "S1" ⟨"geneA", "c1", [], "AC"⟩])]),
          ("S2", none)] "geneX" "out" [("out/geneX.fna", "stale")]).2) :=
  write_hit_sequences_always_writes
    [("S1", some [("geneA", [Hit.ofRow "S1" ⟨"geneA", "c1", [], "AC"⟩])]), ("S2", none)]
    "geneX" "out" [("out/geneX.fna", "stale")]

/-- C8.  Adding a sample with the absence marker still creates a store entry:
the sample is appended to `sample_names` and counted by `table_num`;
`compile_tables` then emits no data rows for it but does emit its non-fatal
warning — the absence is preserved, never silently dropped. -/
theorem absent_table_preserved (store : Store) (s : String)
    (h : s ∉ sample_names store) :
    s ∈ sample_names (add_table store s none) ∧
    sample_names (add_table store s none) = sample_names store ++ [s] ∧
    table_num (add_table store s none) = table_num store + 1 ∧
    compile_data_rows (add_table store s none) = compile_data_rows store ∧
    ("Warning (compile_tables): no query sequence was found in sample " ++ s ++ ".")
      ∈ compile_warnings (add_table store s none) := by
  have hupd : add_table store s none = store ++ [(s, none)] :=
    alUpdate_of_keys_not_mem store s none h
  refine ⟨?_, ?_, ?_, ?_, ?_⟩
  · rw [hupd, sample_names, List.map_append]
    simp
  · rw [hupd, sample_names, List.map_append]
    rfl
  · rw [hupd, table_num, List.length_append]
    rfl
  · rw [hupd, compile_data_rows_append]
    simp [compile_data_rows_cons]
    rfl
  · rw [hupd]
    exact compile_warnings_absent_mem (store ++ [(s, none)]) s (by simp)

/-- Witness for the absent-table theorem: `S2` added as absent after `S1`. -/
theorem absent_table_preserved_witness :
    ("S2" ∉ sample_names [("S1", (none : Option HitTable))]) ∧
    ("S2" ∈ sample_names (add_table [("S1", (none : Option HitTable))] "S2" none) ∧
    sample_names (add_table [("S1", (none : Option HitTable))] "S2" none) =
      sample_names [("S1", (none : Option HitTable))] ++ ["S2"] ∧
    table_num (add_table [("S1", (none : Option HitTable))] "S2" none) =
      table_num [("S1", (none : Option HitTable))] + 1 ∧
    compile_data_rows (add_table [("S1", (none : Option HitTable))] "S2" none) =
      compile_data_rows [("S1", (none : Option HitTable))] ∧
    ("Warning (compile_tables): no query sequence was found in sample " ++ "S2" ++ ".")
      ∈ compile_warnings (add_table [("S1", (none : Option HitTable))] "S2" none)) :=
  ⟨by decide, absent_table_preserved [("S1", none)] "S2" (by decide)⟩

/-- C9.  The reporting methods are read-only on the store: neither
`write_hit_sequences` nor `compile_tables` changes `self.__hit_tables` — the
sample set, each sample's present/absent table and every stored hit are
untouched; the methods only write files and `stderr`. -/
theorem report_methods_read_only (st : PState) (query outdir outdir' : String) :
    (write_hit_sequences_m st query outdir).store = st.store ∧
    (compile_tables_m st outdir').store = st.store :=
  ⟨rfl, rfl⟩

end Labas
